import Mathlib

/-!
Verification of the `at-reference` transclusion compiler (`@path/to/file`
references in text documents).

The development shallowly embeds the TypeScript core — the reference
extractor (`parser.ts`), the path resolver (`resolver.ts`), the heading
analyzer/adjuster (`heading-adjuster.ts`) and the recursive compiler engine
(`compiler.ts`) — as executable Lean functions over `List Char` text, and
proves the specification's claims about them.

Text is modelled as `List Char`; character offsets are `Nat` indices into
that list (the sources index JavaScript strings the same way).  The
filesystem is an explicit finite map from absolute path to file content,
plus a set of directories, mirroring the `fs.existsSync` / `fs.statSync` /
`fs.readFileSync` calls of the sources.  JavaScript regular expressions are
rendered as direct scanners over the character list; each scanner mirrors
one `RegExp` of the sources together with its `exec`-loop (including the
`lastIndex` skipping behaviour, rendered as an explicit skip counter).
-/

namespace AtRef

/-- Text content, as the sources' JavaScript strings: a sequence of
characters indexed from 0. -/
abbrev Str := List Char

/-- Convert a Lean string literal to text content. -/
def strL (s : String) : Str := s.data

/-- The backtick character (code 96), written via its code so that it never
appears bare in the file. -/
def btk : Char := Char.ofNat 96

/-- Left curly brace (code 123). -/
def lbr : Char := Char.ofNat 123

/-- Right curly brace (code 125). -/
def rbr : Char := Char.ofNat 125

/-- JavaScript `\w`: ASCII letters, digits and underscore. -/
def isWordChar (c : Char) : Bool := c.isAlphanum || c = '_'

/-- Path characters of the reference pattern char class (word chars, dash,
dot, slash). -/
def isPathChar (c : Char) : Bool := isWordChar c || c = '-' || c = '.' || c = '/'

/-- JavaScript `\s` (restricted to its ASCII members, the only whitespace
appearing in this code base's documents). -/
def isSpaceChar (c : Char) : Bool :=
  c = ' ' || c = '\t' || c = '\n' || c = '\r' || c = '\x0b' || c = '\x0c'

/-- Characters allowed immediately before the `@` of a reference:
whitespace or an opening bracket/paren/brace (the `[\s\[\(\{]` class of
`AT_REFERENCE_PATTERN`). -/
def isLeadChar (c : Char) : Bool :=
  isSpaceChar c || c = '[' || c = '(' || c = lbr

/-- Characters of the e-mail local part / domain class `[\w.-]`. -/
def isEmailChar (c : Char) : Bool := isWordChar c || c = '.' || c = '-'

/-- The split class `[\s\[\]\(\)\{\}]` used when isolating the text after a
candidate `@`. -/
def isSplitChar (c : Char) : Bool :=
  isSpaceChar c || c = '[' || c = ']' || c = '(' || c = ')' || c = lbr || c = rbr

/-- Non-overlapping occurrences of a triple backtick, leftmost first:
the match starts of the global regex made of three backticks. -/
def tripleScan : Nat → Str → List Nat
  | i, c1 :: c2 :: c3 :: rest =>
    if c1 = btk && c2 = btk && c3 = btk then i :: tripleScan (i + 3) rest
    else tripleScan (i + 1) (c2 :: c3 :: rest)
  | _, _ => []

/-- Pair up consecutive fence occurrences: the lazy global regex for fenced
code blocks matches from one fence to the next one, consuming both. -/
def pairFences : List Nat → List (Nat × Nat)
  | a :: b :: rest => (a, b + 3) :: pairFences rest
  | _ => []

/-- All matches of the inline-code regex (backtick, one or more characters
that are neither backtick nor newline, backtick), as half-open ranges.
The first argument is the skip counter rendering the `exec` loop's
`lastIndex`: after a match the scan resumes after its closing backtick. -/
def inlineScan : Nat → Nat → Str → List (Nat × Nat)
  | skip + 1, i, _ :: rest => inlineScan skip (i + 1) rest
  | _ + 1, _, [] => []
  | 0, _, [] => []
  | 0, i, c :: rest =>
    if c = btk then
      let run := rest.takeWhile (fun d => d ≠ btk && d ≠ '\n')
      if run.length ≥ 1 && rest.get? run.length = some btk then
        (i, i + run.length + 2) :: inlineScan (run.length + 1) (i + 1) rest
      else inlineScan 0 (i + 1) rest
    else inlineScan 0 (i + 1) rest

/-- `findCodeSpanRanges` of `parser.ts`: fenced code blocks first, then
inline code spans that do not lie inside an already recorded fenced
block. -/
def findCodeSpanRanges (cs : Str) : List (Nat × Nat) :=
  let fenced := pairFences (tripleScan 0 cs)
  (inlineScan 0 0 cs).foldl
    (fun ranges m =>
      if ranges.any (fun r => decide (r.1 ≤ m.1) && decide (m.2 ≤ r.2)) then ranges
      else ranges ++ [m])
    fenced

/-- `isInsideCodeSpan` of `parser.ts`. -/
def isInsideCodeSpan (offset : Nat) (codeRanges : List (Nat × Nat)) : Bool :=
  codeRanges.any (fun r => decide (r.1 ≤ offset) && decide (offset < r.2))

/-- Raw candidate matches of `AT_REFERENCE_PATTERN`
(`(?:^|[\s\[\(\{])(@(?:\.{0,2}\/)?[\w\-./]+)`, global and multiline): each
element is the offset of the `@` together with the nonempty path token
following it.  Because `.` and `/` are themselves path characters, the
optional `(?:\.{0,2}\/)?` prefix is subsumed by the greedy `[\w\-./]+`, so
the token is the maximal run of path characters after the `@`.  The `prev`
argument carries the previous character (`none` at the start of text); the
`^` alternative and the newline member of the lead class coincide, so a
position qualifies when it is at the start or its predecessor is a lead
character.  The skip counter renders the `exec` loop's `lastIndex`, which
resumes after the matched path token. -/
def refScan : Nat → Option Char → Nat → Str → List (Nat × Str)
  | skip + 1, _, i, c :: rest => refScan skip (some c) (i + 1) rest
  | _ + 1, _, _, [] => []
  | 0, _, _, [] => []
  | 0, prev, i, c :: rest =>
    if c = '@' && (match prev with | none => true | some d => isLeadChar d) then
      let run := rest.takeWhile isPathChar
      if run.isEmpty then refScan 0 (some c) (i + 1) rest
      else (i, run) :: refScan run.length (some c) (i + 1) rest
    else refScan 0 (some c) (i + 1) rest

/-- `isValidReferencePath` of `parser.ts`: the path has a separator or a
file-extension-like suffix (`/\.\w+$/`). -/
def isValidReferencePath (p : Str) : Bool :=
  let hasPathSeparator := p.contains '/'
  let hasExtension :=
    let r := p.reverse.takeWhile isWordChar
    decide (r.length ≥ 1) && p.reverse.get? r.length = some '.'
  hasPathSeparator || hasExtension

/-- Test of `EMAIL_PATTERN` (`/^[\w.-]+@[\w.-]+\.[a-z]{2,}$/i`).  The
local part may not contain `@`, so the pattern's `@` is the first `@` of
the string, and `[a-z]{2,}` may not contain a dot, so the pattern's `\.` is
the last dot of the remainder. -/
def emailPatternTest (s : Str) : Bool :=
  let locPart := s.takeWhile (fun c => c ≠ '@')
  match s.drop locPart.length with
  | '@' :: domain =>
    (decide (locPart.length ≥ 1) && locPart.all isEmailChar) &&
      (let revD := domain.reverse
       let tldRev := revD.takeWhile (fun c => c ≠ '.')
       let mainRev := revD.drop (tldRev.length + 1)
       (revD.get? tldRev.length = some '.' : Bool) &&
         tldRev.all (fun c => c.isAlpha) && decide (tldRev.length ≥ 2) &&
         decide (mainRev.length ≥ 1) && mainRev.all isEmailChar)
  | _ => false

/-- `looksLikeEmail` of `parser.ts`: scan backwards over `[\w.-]`
characters before the `@`; when at least one is found, test the assembled
candidate against the e-mail pattern. -/
def looksLikeEmail (cs : Str) (matchStart : Nat) : Bool :=
  let beforeAt := ((cs.take matchStart).reverse.takeWhile isEmailChar).reverse
  if beforeAt.isEmpty then false
  else
    let afterAt := (cs.drop (matchStart + 1)).takeWhile (fun c => !isSplitChar c)
    emailPatternTest (beforeAt ++ '@' :: afterAt)

/-- `buildLineOffsets` of `parser.ts`. -/
def lineOffsetsAux : Nat → Str → List Nat
  | _, [] => []
  | i, c :: rest =>
    if c = '\n' then (i + 1) :: lineOffsetsAux (i + 1) rest
    else lineOffsetsAux (i + 1) rest

/-- Offsets of line starts, beginning with 0. -/
def buildLineOffsets (cs : Str) : List Nat := 0 :: lineOffsetsAux 0 cs

/-- The scan loop of `offsetToPosition`: the index of the last line offset
not exceeding the target offset (the source breaks at the first larger
one). -/
def offsetLineLoop (offset : Nat) : Nat → Nat → List Nat → Nat
  | line, _, [] => line
  | line, i, o :: rest =>
    if o ≤ offset then offsetLineLoop offset i (i + 1) rest else line

/-- `offsetToPosition` of `parser.ts`: convert a character offset to a
line/column pair, 1-indexed unless `zeroIndexed`. -/
def offsetToPosition (offset : Nat) (lineOffsets : List Nat)
    (zeroIndexed : Bool) : Nat × Nat :=
  let line := offsetLineLoop offset 0 0 lineOffsets
  let lineStart := (lineOffsets.get? line).getD 0
  let column := offset - lineStart
  let adjustment := if zeroIndexed then 0 else 1
  (line + adjustment, column + adjustment)

/-- `AtReference` of `types.ts`. -/
structure AtReference where
  raw : Str
  path : Str
  startIndex : Nat
  endIndex : Nat
  line : Nat
  column : Nat
  deriving DecidableEq, Repr

/-- `ParseOptions` of `types.ts`. -/
structure ParseOptions where
  zeroIndexed : Bool := false
  deriving DecidableEq, Repr

/-- `extractReferences` of `parser.ts`: run the reference pattern over the
text and keep each candidate that is not inside a code span, does not look
like an e-mail address, and has a valid reference path. -/
def extractReferences (cs : Str) (options : ParseOptions := {}) :
    List AtReference :=
  let lineOffsets := buildLineOffsets cs
  let codeSpanRanges := findCodeSpanRanges cs
  (refScan 0 none 0 cs).filterMap (fun m =>
    let refStart := m.1
    let refMatch : Str := '@' :: m.2
    if isInsideCodeSpan refStart codeSpanRanges then none
    else if looksLikeEmail cs refStart then none
    else if !isValidReferencePath m.2 then none
    else
      let pos := offsetToPosition refStart lineOffsets options.zeroIndexed
      some { raw := refMatch, path := m.2, startIndex := refStart,
             endIndex := refStart + refMatch.length,
             line := pos.1, column := pos.2 })

/-! ## Path model (`node:path`, POSIX)

The sources run `path.isAbsolute`, `path.resolve`, `path.normalize`,
`path.join`, `path.dirname`, `path.extname` and `path.basename` on POSIX
paths; the base paths fed to `path.resolve` are always absolute (they come
from `path.dirname` of an absolute input path or from an explicit option),
so the cwd-prepending fallback of `path.resolve` is never reached.
Trailing-slash preservation of `path.normalize` is irrelevant here because
every normalized path names a file. -/

/-- POSIX `path.isAbsolute`: the path starts with a slash. -/
def pathIsAbsolute (p : Str) : Bool :=
  match p with
  | c :: _ => c = '/'
  | [] => false

/-- Split a path at slashes. -/
def splitSlash : Str → List Str
  | [] => [[]]
  | c :: rest =>
    if c = '/' then [] :: splitSlash rest
    else
      match splitSlash rest with
      | seg :: segs => (c :: seg) :: segs
      | [] => [[c]]

/-- One step of segment normalization: drop empty and `.` segments, let
`..` pop a previous segment (or be dropped at the root of an absolute
path, or pile up for a relative path). -/
def normStep (absFlag : Bool) (stack : List Str) (seg : Str) : List Str :=
  if seg = ([] : Str) || seg = ['.'] then stack
  else if seg = ['.', '.'] then
    match stack with
    | top :: rest => if top = ['.', '.'] then seg :: stack else rest
    | [] => if absFlag then [] else [seg]
  else seg :: stack

/-- POSIX `path.normalize`. -/
def pathNormalize (p : Str) : Str :=
  let absFlag := pathIsAbsolute p
  let segs := ((splitSlash p).foldl (normStep absFlag) []).reverse
  let body := (segs.intersperse ['/']).flatten
  if absFlag then '/' :: body
  else if body = ([] : Str) then ['.'] else body

/-- POSIX `path.resolve base p` for an absolute `base`. -/
def pathResolve (base p : Str) : Str :=
  if pathIsAbsolute p then pathNormalize p
  else pathNormalize (base ++ '/' :: p)

/-- POSIX `path.join a b`. -/
def pathJoin (a b : Str) : Str := pathNormalize (a ++ '/' :: b)

/-- POSIX `path.dirname` for file paths. -/
def pathDirname (p : Str) : Str :=
  let tail := p.reverse.takeWhile (fun c => c ≠ '/')
  if tail.length = p.length then ['.']
  else
    let rem := p.take (p.length - tail.length - 1)
    if rem = ([] : Str) then ['/'] else rem

/-- POSIX `path.extname`. -/
def pathExtname (p : Str) : Str :=
  let base := (p.reverse.takeWhile (fun c => c ≠ '/')).reverse
  let tail := base.reverse.takeWhile (fun c => c ≠ '.')
  if tail.length = base.length then []
  else if tail.length + 1 = base.length then []
  else '.' :: tail.reverse

/-- POSIX `path.basename p ext`. -/
def pathBasename (p : Str) (ext : Str) : Str :=
  let base := (p.reverse.takeWhile (fun c => c ≠ '/')).reverse
  if ext ≠ ([] : Str) && ext.isSuffixOf base && ext.length < base.length then
    base.take (base.length - ext.length)
  else base

/-! ## Filesystem model and the path resolver (`resolver.ts`) -/

/-- The filesystem the core reads through `node:fs`: a finite map from
absolute path to file content, a set of directory paths, and the process
working directory (`process.cwd()`). -/
structure FileSystem where
  files : List (Str × Str) := []
  dirs : List Str := []
  cwd : Str := strL "/"
  deriving DecidableEq, Repr

/-- `fs.existsSync`. -/
def fsExists (fs : FileSystem) (p : Str) : Bool :=
  (fs.files.lookup p).isSome || fs.dirs.contains p

/-- `ResolveOptions` of `types.ts`. -/
structure ResolveOptions where
  basePath : Option Str := none
  tryExtensions : List Str := []
  deriving DecidableEq, Repr

/-- `ResolvedPath` of `types.ts`.  The source's `exists` field is called
`existsb` here because `exists` is reserved in Lean. -/
structure ResolvedPath where
  resolvedPath : Str
  existsb : Bool
  isDirectory : Bool
  error : Option Str := none
  deriving DecidableEq, Repr

/-- `createResult` of `resolver.ts`: stat the path, catching a failed stat
as an error result. -/
def createResult (fs : FileSystem) (resolvedPath : Str) : ResolvedPath :=
  match fs.files.lookup resolvedPath with
  | some _ => { resolvedPath, existsb := true, isDirectory := false }
  | none =>
    if fs.dirs.contains resolvedPath then
      { resolvedPath, existsb := true, isDirectory := true }
    else
      { resolvedPath, existsb := false, isDirectory := false,
        error := some (strL "Cannot stat file: " ++ resolvedPath) }

/-- The candidate-path computation of `resolvePath` (its branch chain
before any filesystem probe). -/
def resolveTarget (fs : FileSystem) (refPath : Str)
    (options : ResolveOptions) : Str :=
  let basePath := options.basePath.getD fs.cwd
  let targetPath :=
    if pathIsAbsolute refPath then refPath
    else if (strL "./").isPrefixOf refPath || (strL "../").isPrefixOf refPath then
      pathResolve basePath refPath
    else if (strL "/").isPrefixOf refPath then
      pathResolve basePath ('.' :: refPath)
    else pathResolve basePath refPath
  pathNormalize targetPath

/-- `resolvePath` of `resolver.ts`: compute the candidate, then probe the
candidate itself, the candidate with each `tryExtensions` suffix, and
`index` plus each suffix under the candidate; the first existing entry
wins, otherwise a not-found result carrying the candidate path. -/
def resolvePath (fs : FileSystem) (refPath : Str)
    (options : ResolveOptions := {}) : ResolvedPath :=
  let targetPath := resolveTarget fs refPath options
  if fsExists fs targetPath then createResult fs targetPath
  else
    match options.tryExtensions.find? (fun ext => fsExists fs (targetPath ++ ext)) with
    | some ext => createResult fs (targetPath ++ ext)
    | none =>
      match options.tryExtensions.find?
          (fun ext => fsExists fs (pathJoin targetPath (strL "index" ++ ext))) with
      | some ext => createResult fs (pathJoin targetPath (strL "index" ++ ext))
      | none =>
        { resolvedPath := targetPath, existsb := false, isDirectory := false,
          error := some (strL "File not found: " ++ targetPath) }

/-- `pathExists` of `resolver.ts`. -/
def pathExistsFn (fs : FileSystem) (refPath : Str) (basePath : Option Str) : Bool :=
  (resolvePath fs refPath { basePath }).existsb

/-! ## Heading analyzer / adjuster (`heading-adjuster.ts`) -/

/-- `Heading` of `types.ts`. -/
structure Heading where
  level : Nat
  position : Nat
  text : Str
  deriving DecidableEq, Repr

/-- `HeadingContext` of `types.ts`. -/
structure HeadingContext where
  contextLevel : Nat
  shiftAmount : Nat
  deriving DecidableEq, Repr

/-- First occurrence of a pattern in a suffix of the text, as an offset
from the given index. -/
def findSubC (pat : Str) : Nat → Str → Option Nat
  | i, [] => if pat.isPrefixOf ([] : Str) then some i else none
  | i, c :: rest =>
    if pat.isPrefixOf (c :: rest) then some i else findSubC pat (i + 1) rest

/-- Match of the `<file ...>...</file>` / `<file ... />` alternation at a
given suffix: returns the match length.  The engine first tries the paired
form — `<file`, one whitespace, a greedy run of non-`>` characters, `>`,
then the lazily nearest `</file>` — and only when no closing tag follows
does it try the self-closing form, whose non-`>` run must end in `/`. -/
def fileTagAt (l : Str) : Option Nat :=
  if (strL "<file").isPrefixOf l then
    match l.drop 5 with
    | ws :: rest2 =>
      if isSpaceChar ws then
        let u := rest2.takeWhile (fun c => c ≠ '>')
        if rest2.get? u.length = some '>' then
          let afterGt := rest2.drop (u.length + 1)
          match findSubC (strL "</file>") 0 afterGt with
          | some k => some (5 + 1 + u.length + 1 + k + 7)
          | none =>
            if u.getLast? = some '/' then some (5 + 1 + u.length + 1) else none
        else none
      else none
    | [] => none
  else none

/-- All matches of the file-block regex, as half-open ranges, with the
`exec` loop's skipping rendered as a skip counter. -/
def fileBlockScan : Nat → Nat → Str → List (Nat × Nat)
  | skip + 1, i, _ :: rest => fileBlockScan skip (i + 1) rest
  | _ + 1, _, [] => []
  | 0, _, [] => []
  | 0, i, c :: rest =>
    match fileTagAt (c :: rest) with
    | some len => (i, i + len) :: fileBlockScan (len - 1) (i + 1) rest
    | none => fileBlockScan 0 (i + 1) rest

/-- `findExcludedRanges` of `heading-adjuster.ts`: fenced code blocks,
then inline code spans not inside a recorded block, then (optionally)
`<file>` blocks. -/
def findExcludedRanges (cs : Str) (includeFileBlocks : Bool := true) :
    List (Nat × Nat) :=
  let fenced := pairFences (tripleScan 0 cs)
  let withInline :=
    (inlineScan 0 0 cs).foldl
      (fun ranges m =>
        if ranges.any (fun r => decide (r.1 ≤ m.1) && decide (m.2 ≤ r.2)) then ranges
        else ranges ++ [m])
      fenced
  if includeFileBlocks then withInline ++ fileBlockScan 0 0 cs else withInline

/-- `isInsideCodeBlock` of `heading-adjuster.ts`. -/
def isInsideCodeBlock (offset : Nat) (codeRanges : List (Nat × Nat)) : Bool :=
  codeRanges.any (fun r => decide (r.1 ≤ offset) && decide (offset < r.2))

/-- JavaScript `String.trim` (ASCII whitespace). -/
def trimJS (s : Str) : Str :=
  ((s.dropWhile isSpaceChar).reverse.dropWhile isSpaceChar).reverse

/-- Match of the ATX heading pattern `^(#{1,6})(\s+.+)$` (multiline) at a
line start.  Returns `(level, g2, tGroup)`: the hash count, the whole text
after the hashes up to the match end (the `(\s+.+)` group), and the `.+`
portion (used by `extractHeadings`, whose pattern groups the same match as
`(#{1,6})\s+(.+)`).  When the character after the greedy whitespace run
exists and is not a newline, `.+` takes the rest of that line.  Otherwise
the engine backtracks `\s+`: it succeeds at the largest split whose next
character is a non-newline — the last non-newline character of the run,
provided at least one run character precedes it — and `.+` then consumes
exactly that character, the one before the run's newline tail (multiline
`$` fires there).  So `g2` is the run cut after its last non-newline
character, and the `.+` group is that single character. -/
def headMatchAt (l : Str) : Option (Nat × Str × Str) :=
  let hashes := l.takeWhile (fun c => c = '#')
  let h := hashes.length
  if 1 ≤ h && h ≤ 6 then
    let afterH := l.drop h
    let ws := afterH.takeWhile isSpaceChar
    if ws.isEmpty then none
    else
      let t := (afterH.drop ws.length).takeWhile (fun c => c ≠ '\n')
      if !t.isEmpty then some (h, ws ++ t, t)
      else
        let core := (ws.reverse.dropWhile (fun c => c = '\n')).reverse
        if 2 ≤ core.length then some (h, core, core.drop (core.length - 1))
        else none
  else none

/-- All matches of the heading pattern over the text: position, level,
`(\s+.+)` group and `.+` group.  The boolean tracks whether the current
position is a line start (where the multiline `^` can match); the skip
counter renders the `exec` loop's `lastIndex`. -/
def headScan : Nat → Bool → Nat → Str → List (Nat × Nat × Str × Str)
  | skip + 1, _, i, c :: rest => headScan skip (c = '\n') (i + 1) rest
  | _ + 1, _, _, [] => []
  | 0, _, _, [] => []
  | 0, atStart, i, c :: rest =>
    if atStart then
      match headMatchAt (c :: rest) with
      | some (h, g2, t) =>
        (i, h, g2, t) :: headScan (h + g2.length - 1) (c = '\n') (i + 1) rest
      | none => headScan 0 (c = '\n') (i + 1) rest
    else headScan 0 (c = '\n') (i + 1) rest

/-- `extractHeadings` of `heading-adjuster.ts`: heading matches outside
excluded ranges, with trimmed text. -/
def extractHeadings (cs : Str) : List Heading :=
  let excludedRanges := findExcludedRanges cs
  (headScan 0 true 0 cs).filterMap (fun m =>
    if isInsideCodeBlock m.1 excludedRanges then none
    else some { level := m.2.1, position := m.1, text := trimJS m.2.2.2 })

/-- Clamp a target heading level into `[1, 6]` (`Math.max(1, Math.min(targetLevel, 6))`). -/
def clampLevel (t : Int) : Nat := (max 1 (min t 6)).toNat

/-- The heading matches `adjustHeadings` rewrites: every heading-pattern
match whose position is not inside the excluded ranges. -/
def headMatches (cs : Str) (skipFileBlocks : Bool) :
    List (Nat × Nat × Str × Str) :=
  let excludedRanges := findExcludedRanges cs skipFileBlocks
  (headScan 0 true 0 cs).filter (fun m => !isInsideCodeBlock m.1 excludedRanges)

/-- One iteration of the splice loop of `adjustHeadings`: replace the
match's hashes by the clamped target level's hashes at the offset-adjusted
position, accumulating the length drift and the number of clamped
headings. -/
def adjustStep (shiftAmount : Int) (st : Str × Int × Nat)
    (m : Nat × Nat × Str × Str) : Str × Int × Nat :=
  let adjusted := st.1
  let offset := st.2.1
  let clampedCount := st.2.2
  let currentLevel : Int := m.2.1
  let targetLevel := currentLevel + shiftAmount
  let newLevel := clampLevel targetLevel
  let clampedCount' :=
    if targetLevel > 6 || targetLevel < 1 then clampedCount + 1 else clampedCount
  let newHashes : Str := List.replicate newLevel '#'
  let adjustedPos := ((m.1 : Int) + offset).toNat
  let matchLen := m.2.1 + m.2.2.1.length
  let adjusted' :=
    adjusted.take adjustedPos ++ newHashes ++ m.2.2.1 ++
      adjusted.drop (adjustedPos + matchLen)
  (adjusted', offset + ((newLevel : Int) - currentLevel), clampedCount')

/-- The splice loop of `adjustHeadings`, working on a copy of the
content. -/
def adjustFold (shiftAmount : Int) (ms : List (Nat × Nat × Str × Str))
    (start : Str) : Str × Int × Nat :=
  ms.foldl (adjustStep shiftAmount) (start, 0, 0)

/-- `adjustHeadings` of `heading-adjuster.ts`.  The `warnOnClamp` flag only
controls a console warning in the source; the clamp count itself is exposed
through `adjustClampCount`. -/
def adjustHeadings (cs : Str) (shiftAmount : Int)
    (warnOnClamp : Bool := false) (skipFileBlocks : Bool := false) : Str :=
  if shiftAmount = 0 then cs
  else (adjustFold shiftAmount (headMatches cs skipFileBlocks) cs).1

/-- `analyzeHeadingContext` of `heading-adjuster.ts`: map every reference
to the last heading strictly before it (association list keyed by the
reference's start offset). -/
def analyzeHeadingContext (cs : Str) (references : List AtReference) :
    List (Nat × HeadingContext) :=
  let headings := extractHeadings cs
  references.map (fun ref =>
    let preceding := (headings.takeWhile (fun h => h.position < ref.startIndex)).getLast?
    let contextLevel := (preceding.map (fun h => h.level)).getD 0
    (ref.startIndex, { contextLevel, shiftAmount := contextLevel }))

/-- `normalizeHeadings` of `heading-adjuster.ts`: shift so the first
heading lands on the target level; content without headings is returned
unchanged. -/
def normalizeHeadings (cs : Str) (targetLevel : Int)
    (warnOnClamp : Bool := false) (skipFileBlocks : Bool := false) : Str :=
  match extractHeadings cs with
  | [] => cs
  | h0 :: _ => adjustHeadings cs (targetLevel - (h0.level : Int)) warnOnClamp skipFileBlocks

/-! ## Recursive compiler engine (`compiler.ts`) -/

/-- Closing-delimiter search for the front-matter block: the offset just
past a line consisting of `---` (and its trailing newline, when present). -/
def fmClose : Nat → Str → Option Nat
  | i, '\n' :: '-' :: '-' :: '-' :: '\n' :: _ => some (i + 5)
  | i, ['\n', '-', '-', '-'] => some (i + 4)
  | i, _ :: rest => fmClose (i + 1) rest
  | _, [] => none

/-- Modelled from the spec: `stripFrontMatter` is imported by `compiler.ts`
from `./parser`, but its implementation is not among the provided sources.
Per the spec ("Strip any leading metadata block (front-matter)
unconditionally from the working text") and the project README ("strips
YAML frontmatter (between `---` delimiters)"): when the text starts with a
`---` line, everything through the closing `---` line (inclusive) is
removed; otherwise the text is returned unchanged. -/
def stripFrontMatter (cs : Str) : Str :=
  if (strL "---\n").isPrefixOf cs then
    match fmClose 0 (cs.drop 3) with
    | some n => (cs.drop 3).drop n
    | none => cs
  else cs

/-- Heading adjustment mode of `CompileOptions`. -/
inductive HeadingMode
  | normalize
  | additive
  deriving DecidableEq, Repr

/-- `CompileOptions` of `compiler.ts` (the fields the core consumes). -/
structure CompileOptions where
  basePath : Option Str := none
  tryExtensions : List Str := []
  outputPath : Option Str := none
  writeOutput : Bool := true
  contentWrapper : Option (Str → Str → AtReference → Str) := none
  optimizeDuplicates : Bool := false
  headingMode : HeadingMode := HeadingMode.normalize

/-- `CompiledReference` of `compiler.ts`.  The optional `circular` flag of
the source is a plain boolean defaulting to false. -/
structure CompiledReference where
  reference : AtReference
  resolvedPath : Str
  found : Bool
  content : Option Str := none
  error : Option Str := none
  circular : Bool := false
  importCount : Option Nat := none
  importedFrom : Option Str := none
  deriving DecidableEq, Repr

/-- `ImportStats` of `compiler.ts`. -/
structure ImportStats where
  fileImportCounts : List (Str × Nat)
  duplicateFiles : List Str
  deriving DecidableEq, Repr

/-- `CompileResult` of `compiler.ts`. -/
structure CompileResult where
  inputPath : Str
  outputPath : Str
  compiledContent : Str
  references : List CompiledReference
  successCount : Nat
  failedCount : Nat
  written : Bool
  importStats : ImportStats
  deriving DecidableEq, Repr

/-- Return value of one `compileContentRecursive` invocation, together
with the threaded run-scoped state (the source mutates the maps in
place). -/
structure CompileInner where
  compiledContent : Str
  references : List CompiledReference
  counts : List (Str × Nat)
  imported : List Str
  deriving DecidableEq, Repr

/-- `Map.get` on the run-scoped import-count map. -/
def mapGet (m : List (Str × Nat)) (k : Str) : Option Nat := m.lookup k

/-- `Map.set` on the run-scoped import-count map. -/
def mapSet (m : List (Str × Nat)) (k : Str) (v : Nat) : List (Str × Nat) :=
  match m with
  | [] => [(k, v)]
  | (k', v') :: rest => if k' = k then (k, v) :: rest else (k', v') :: mapSet rest k v

/-- `Set.add` on the run-scoped imported-files set. -/
def setAdd (s : List Str) (p : Str) : List Str :=
  if s.contains p then s else s ++ [p]

/-- `defaultContentWrapper` of `compiler.ts`. -/
def defaultContentWrapper (content : Str) (filePath : Str)
    (_ref : AtReference) : Str :=
  strL "<file path=\x22" ++ filePath ++ strL "\x22>\n\n" ++ content ++ strL "\n\n</file>"

/-- `referenceWrapper` of `compiler.ts`. -/
def referenceWrapper (filePath : Str) : Str :=
  strL "<file path=\x22" ++ filePath ++ strL "\x22 />"

/-- `getBuiltOutputPath` of `compiler.ts`. -/
def getBuiltOutputPath (inputPath : Str) : Str :=
  let dir := pathDirname inputPath
  let ext := pathExtname inputPath
  let base := pathBasename inputPath ext
  pathJoin dir (base ++ strL ".built" ++ ext)

/-- The pre-scan of `compileContentRecursive` marking, in document order,
the start index of the first occurrence of each resolved path that is
neither already imported in an enclosing scope nor seen earlier in this
text. -/
def prescanFirstOcc (fs : FileSystem) (resOpts : ResolveOptions)
    (importedFiles : List Str) (references : List AtReference) : List Nat :=
  (references.foldl
    (fun (st : List Nat × List Str) ref =>
      let resolved := resolvePath fs ref.path resOpts
      if resolved.existsb && !resolved.isDirectory then
        if !importedFiles.contains resolved.resolvedPath &&
            !st.2.contains resolved.resolvedPath then
          (st.1 ++ [ref.startIndex], st.2 ++ [resolved.resolvedPath])
        else st
      else st)
    ([], [])).1

/-- Insertion into a list sorted by descending `startIndex`. -/
def insertDesc (r : AtReference) : List AtReference → List AtReference
  | [] => [r]
  | x :: xs => if x.startIndex ≤ r.startIndex then r :: x :: xs else x :: insertDesc r xs

/-- The `[...references].sort((a, b) => b.startIndex - a.startIndex)` of
`compileContentRecursive` (start indices are pairwise distinct, so any
correct sort yields this result). -/
def sortByStartDesc (l : List AtReference) : List AtReference :=
  l.foldr insertDesc []

/-- The per-invocation context of the reference-processing loop of
`compileContentRecursive`. -/
structure RunCtx where
  fs : FileSystem
  opts : CompileOptions
  basePath : Str
  contextMap : List (Nat × HeadingContext)
  firstOcc : List Nat
  currentFilePath : Str
  stack : List Str
  hctx : Int

/-- The wrapper in effect (`contentWrapper` option or the default). -/
def wrapWith (opts : CompileOptions) : Str → Str → AtReference → Str :=
  opts.contentWrapper.getD defaultContentWrapper

/-- The reference-processing loop of `compileContentRecursive`, over the
references sorted by descending start index.  `recur` is the recursive
compilation of a referenced file's content (the enclosing function one fuel
step down); `none` propagates fuel exhaustion.  Each processed reference
appends its record (after any nested records) to the accumulator, which the
caller reverses. -/
def processRefs
    (recur : Str → Str → List Str → List (Str × Nat) → List Str → Int →
      Option CompileInner)
    (ctx : RunCtx) :
    List AtReference → Str → List (Str × Nat) → List Str →
      List CompiledReference →
      Option (Str × List CompiledReference × List (Str × Nat) × List Str)
  | [], content, counts, imported, acc => some (content, acc, counts, imported)
  | ref :: rest, content, counts, imported, acc =>
    let resolved := resolvePath ctx.fs ref.path
      { basePath := some ctx.basePath, tryExtensions := ctx.opts.tryExtensions }
    let base : CompiledReference :=
      { reference := ref, resolvedPath := resolved.resolvedPath,
        found := resolved.existsb && !resolved.isDirectory }
    if ctx.stack.contains resolved.resolvedPath then
      let circRec : CompiledReference :=
        { base with
          found := false, circular := true,
          error := some (strL "Circular dependency detected: " ++ resolved.resolvedPath) }
      processRefs recur ctx rest content counts imported (acc ++ [circRec])
    else if resolved.existsb && !resolved.isDirectory then
      let currentCount := (mapGet counts resolved.resolvedPath).getD 0
      let counts1 := mapSet counts resolved.resolvedPath (currentCount + 1)
      let withCount :=
        { base with
          importCount := some (currentCount + 1),
          importedFrom := some ctx.currentFilePath }
      let isFirstOccurrence := ctx.firstOcc.contains ref.startIndex
      if ctx.opts.optimizeDuplicates && !isFirstOccurrence then
        let refTag := referenceWrapper resolved.resolvedPath
        let content' := content.take ref.startIndex ++ refTag ++ content.drop ref.endIndex
        processRefs recur ctx rest content' counts1 imported
          (acc ++ [{ withCount with content := some [] }])
      else
        let imported1 := setAdd imported resolved.resolvedPath
        match ctx.fs.files.lookup resolved.resolvedPath with
        | none =>
          let readErrRec : CompiledReference :=
            { withCount with
              found := false,
              error := some (strL "Unknown error reading file") }
          processRefs recur ctx rest content counts1 imported1 (acc ++ [readErrRec])
        | some fileContent =>
          let localContextLevel :=
            ((ctx.contextMap.lookup ref.startIndex).map
              (fun c => c.contextLevel)).getD 0
          let childHeadingContext : Int :=
            if ctx.opts.headingMode = HeadingMode.additive then
              ctx.hctx + (localContextLevel : Int)
            else (localContextLevel : Int)
          let newPathStack := ctx.stack ++ [resolved.resolvedPath]
          match recur fileContent resolved.resolvedPath newPathStack counts1
              imported1 childHeadingContext with
          | none => none
          | some nested =>
            let wrapped :=
              wrapWith ctx.opts nested.compiledContent resolved.resolvedPath ref
            let content' :=
              content.take ref.startIndex ++ wrapped ++ content.drop ref.endIndex
            let fullRec : CompiledReference :=
              { withCount with content := some nested.compiledContent }
            processRefs recur ctx rest content' nested.counts nested.imported
              (acc ++ nested.references ++ [fullRec])
    else if resolved.isDirectory then
      let dirRec : CompiledReference :=
        { base with
          found := false,
          error := some (strL "Path is a directory, not a file") }
      processRefs recur ctx rest content counts imported (acc ++ [dirRec])
    else
      let missRec : CompiledReference :=
        { base with error := some ((resolved.error).getD (strL "File not found")) }
      processRefs recur ctx rest content counts imported (acc ++ [missRec])

/-- `compileContentRecursive` of `compiler.ts`, with an explicit recursion
budget.  The recursion of the source is bounded by the ancestor path stack
— it only ever re-enters on a file that exists and is not on the stack —
so a budget of one more than the number of files always suffices, and the
entry points below pass exactly that; `none` means the budget ran out. -/
def compileContentRecursiveF :
    Nat → FileSystem → CompileOptions → Str → Str → List Str →
      List (Str × Nat) → List Str → Int → Option CompileInner
  | 0, _, _, _, _, _, _, _, _ => none
  | fuel + 1, fs, options, content, currentFilePath, pathStack, importCounts,
      importedFiles, headingContext =>
    let basePath := options.basePath.getD (pathDirname currentFilePath)
    let processedContent := stripFrontMatter content
    let references := extractReferences processedContent
    let contextMap := analyzeHeadingContext processedContent references
    let firstOcc :=
      if options.optimizeDuplicates then
        prescanFirstOcc fs
          { basePath := some basePath, tryExtensions := options.tryExtensions }
          importedFiles references
      else []
    let sortedRefs := sortByStartDesc references
    let ctx : RunCtx :=
      { fs, opts := options, basePath, contextMap, firstOcc,
        currentFilePath, stack := pathStack, hctx := headingContext }
    match processRefs (compileContentRecursiveF fuel fs options) ctx sortedRefs
        processedContent importCounts importedFiles [] with
    | none => none
    | some (compiledContent, refAcc, counts', imported') =>
      let compiledRefs := refAcc.reverse
      let finalContent :=
        if options.headingMode = HeadingMode.additive then
          if headingContext > 0 then
            adjustHeadings compiledContent headingContext true true
          else compiledContent
        else
          if headingContext ≥ 0 then
            normalizeHeadings compiledContent (headingContext + 1) true false
          else compiledContent
      some { compiledContent := finalContent, references := compiledRefs,
             counts := counts', imported := imported' }

/-- `compileFileWithCache` of `compiler.ts` (without the output-file
write, which does not affect the returned result beyond the `written`
flag).  `none` covers the two abnormal exits: the top-level read throwing,
and the recursion budget — never reached from a sufficient budget —
running out. -/
def compileFileWithCache (fs : FileSystem) (filePath : Str)
    (options : CompileOptions) (importCounts : List (Str × Nat))
    (importedFiles : List Str) : Option CompileResult :=
  let absoluteInputPath := pathResolve fs.cwd filePath
  match fs.files.lookup absoluteInputPath with
  | none => none
  | some content =>
    let pathStack := [absoluteInputPath]
    let effectiveBasePath := options.basePath.getD (pathDirname absoluteInputPath)
    let initialHeadingContext : Int :=
      if options.headingMode = HeadingMode.additive then 0 else -1
    match compileContentRecursiveF (fs.files.length + 1) fs
        { options with basePath := some effectiveBasePath } content
        absoluteInputPath pathStack importCounts importedFiles
        initialHeadingContext with
    | none => none
    | some inner =>
      let successCount := (inner.references.filter (fun r => r.found)).length
      let failedCount := (inner.references.filter (fun r => !r.found)).length
      let duplicateFiles := (inner.counts.filter (fun e => 1 < e.2)).map (fun e => e.1)
      let outputPath := options.outputPath.getD (getBuiltOutputPath absoluteInputPath)
      some { inputPath := absoluteInputPath,
             outputPath := pathResolve fs.cwd outputPath,
             compiledContent := inner.compiledContent,
             references := inner.references,
             successCount, failedCount,
             written := options.writeOutput,
             importStats := { fileImportCounts := inner.counts, duplicateFiles } }

/-- `compileFile` of `compiler.ts`: a fresh run-scoped cache per call. -/
def compileFile (fs : FileSystem) (filePath : Str)
    (options : CompileOptions := {}) : Option CompileResult :=
  compileFileWithCache fs filePath options [] []

/-- `compileContent` of `compiler.ts`: compile a content string against a
virtual file path, with an empty ancestor stack and fresh caches. -/
def compileContent (fs : FileSystem) (content : Str)
    (options : CompileOptions := {}) : Option CompileInner :=
  let basePath := options.basePath.getD fs.cwd
  let virtualFilePath := pathJoin basePath (strL "__virtual__.md")
  let initialHeadingContext : Int :=
    if options.headingMode = HeadingMode.additive then 0 else -1
  compileContentRecursiveF (fs.files.length + 1) fs
    { options with basePath := some basePath } content virtualFilePath
    [] [] [] initialHeadingContext

/-! ## Resolver claims (C4, C7) -/

/-- The probe sequence of `resolvePath`: the computed candidate, the
candidate with each `tryExtensions` suffix in list order, then `index`
plus each suffix under the candidate in list order. -/
def probeList (fs : FileSystem) (refPath : Str) (options : ResolveOptions) :
    List Str :=
  let t := resolveTarget fs refPath options
  t :: (options.tryExtensions.map (fun ext => t ++ ext) ++
        options.tryExtensions.map (fun ext => pathJoin t (strL "index" ++ ext)))

private theorem find?_append_or {α : Type} (p : α → Bool) (l1 l2 : List α) :
    (l1 ++ l2).find? p = ((l1.find? p).or (l2.find? p)) := by
  induction l1 with
  | nil => simp
  | cons a l ih =>
    cases h : p a with
    | true => simp [List.find?, h]
    | false => simpa [List.find?, h] using ih

private theorem find?_map_comp {α β : Type} (f : α → β) (p : β → Bool)
    (l : List α) :
    (l.map f).find? p = (l.find? (fun a => p (f a))).map f := by
  induction l with
  | nil => rfl
  | cons a l ih =>
    cases h : p (f a) with
    | true => simp [List.find?, h]
    | false => simpa [List.find?, h] using ih

/-- C4 (counterexample): for the path `/docs/x.md` and base `/base`, the
computed candidate is `/docs/x.md` itself — not `/base/docs/x.md`, the
path the claim's strip-and-join rule would produce. -/
theorem C4_counterexample :
    (resolvePath ({} : FileSystem) (strL "/docs/x.md")
        { basePath := some (strL "/base") }).resolvedPath = strL "/docs/x.md" ∧
      (resolvePath ({} : FileSystem) (strL "/docs/x.md")
        { basePath := some (strL "/base") }).resolvedPath ≠ strL "/base/docs/x.md" := by
  decide

/-- C4 (amended): a reference path with a leading `/` satisfies
`path.isAbsolute`, which `resolvePath` checks before its leading-slash
branch; the path is therefore used verbatim (normalized) as the candidate,
the strip-and-join branch is unreachable, and the result does not depend
on `basePath` at all. -/
theorem C4_leading_slash_verbatim (fs : FileSystem) (p : Str)
    (e : List Str) (bp1 bp2 : Option Str) (h : p.head? = some '/') :
    resolveTarget fs p { basePath := bp1, tryExtensions := e } = pathNormalize p ∧
      resolvePath fs p { basePath := bp1, tryExtensions := e } =
        resolvePath fs p { basePath := bp2, tryExtensions := e } := by
  have habs : pathIsAbsolute p = true := by
    cases p with
    | nil => simp at h
    | cons c rest =>
      simp only [List.head?] at h
      simp [pathIsAbsolute, Option.some_inj.mp h]
  have htarget : ∀ bp : Option Str,
      resolveTarget fs p { basePath := bp, tryExtensions := e } = pathNormalize p := by
    intro bp
    simp [resolveTarget, habs]
  refine ⟨htarget bp1, ?_⟩
  simp only [resolvePath, htarget bp1, htarget bp2]

/-- Witness for `C4_leading_slash_verbatim` at the path `/a/b.md`. -/
theorem C4_leading_slash_verbatim_witness :
    resolveTarget ({} : FileSystem) (strL "/a/b.md")
        { basePath := some (strL "/x"), tryExtensions := [] } =
      pathNormalize (strL "/a/b.md") ∧
      resolvePath ({} : FileSystem) (strL "/a/b.md")
          { basePath := some (strL "/x"), tryExtensions := [] } =
        resolvePath ({} : FileSystem) (strL "/a/b.md")
          { basePath := some (strL "/y"), tryExtensions := [] } :=
  C4_leading_slash_verbatim ({} : FileSystem) (strL "/a/b.md") []
    (some (strL "/x")) (some (strL "/y")) (by decide)

/-- C7 (amended): `resolvePath` probes exactly the candidate, then the
candidate with each `tryExtensions` suffix in list order, then `index`
plus each suffix under the candidate in list order; the first existing
entry wins, and when nothing exists the result has `exists := false` with
an error string carrying the originally computed candidate path (the first
probe — not the final one). -/
theorem C7_probe_order (fs : FileSystem) (refPath : Str)
    (opts : ResolveOptions) :
    resolvePath fs refPath opts =
      match (probeList fs refPath opts).find? (fsExists fs) with
      | some hit => createResult fs hit
      | none =>
        { resolvedPath := resolveTarget fs refPath opts,
          existsb := false, isDirectory := false,
          error := some (strL "File not found: " ++ resolveTarget fs refPath opts) } := by
  simp only [resolvePath, probeList, List.find?]
  cases h0 : fsExists fs (resolveTarget fs refPath opts) with
  | true => simp [h0]
  | false =>
    simp only [h0, Bool.false_eq_true, if_false]
    rw [find?_append_or, find?_map_comp, find?_map_comp]
    cases h1 : opts.tryExtensions.find?
        (fun ext => fsExists fs (resolveTarget fs refPath opts ++ ext)) with
    | some e1 => simp [h1, Option.or]
    | none =>
      simp only [h1, Option.map_none', Option.or]
      cases h2 : opts.tryExtensions.find?
          (fun ext => fsExists fs
            (pathJoin (resolveTarget fs refPath opts) (strL "index" ++ ext))) with
      | some e2 => simp [h2]
      | none => simp [h2]

/-- C7 (counterexample): with one try-extension and nothing on disk, the
final probed path is `/b/x/index.md`, but the error string carries only the
first probe `/b/x` and does not contain the final probed path. -/
theorem C7_counterexample :
    (probeList ({} : FileSystem) (strL "x")
        { basePath := some (strL "/b"), tryExtensions := [strL ".md"] }).getLast? =
      some (strL "/b/x/index.md") ∧
      (resolvePath ({} : FileSystem) (strL "x")
          { basePath := some (strL "/b"), tryExtensions := [strL ".md"] }).existsb = false ∧
      (resolvePath ({} : FileSystem) (strL "x")
          { basePath := some (strL "/b"), tryExtensions := [strL ".md"] }).error =
        some (strL "File not found: /b/x") ∧
      ¬ strL "/b/x/index.md" <:+: strL "File not found: /b/x" := by
  decide

/-! ## Extractor claims (C2, C10) -/

private theorem refScan_mem {cs : Str} :
    ∀ {skip : Nat} {prev : Option Char} {i : Nat} {m : Nat × Str},
      m ∈ refScan skip prev i cs →
      ∃ k, skip ≤ k ∧ m.1 = i + k ∧ k < cs.length ∧
        (cs.drop k).head? = some '@' ∧
        m.2 = (cs.drop (k + 1)).takeWhile isPathChar ∧ m.2 ≠ [] := by
  induction cs with
  | nil =>
    intro skip prev i m h
    cases skip <;> simp [refScan] at h
  | cons c rest ih =>
    intro skip prev i m h
    cases skip with
    | succ s =>
      simp only [refScan] at h
      obtain ⟨k, hk1, hk2, hk3, hk4, hk5, hk6⟩ := ih h
      exact ⟨k + 1, by omega, by omega, by simpa using hk3, by simpa using hk4,
        by simpa using hk5, hk6⟩
    | zero =>
      simp only [refScan] at h
      split at h
      next hc =>
        split at h
        next hrun =>
          obtain ⟨k, hk1, hk2, hk3, hk4, hk5, hk6⟩ := ih h
          exact ⟨k + 1, by omega, by omega, by simpa using hk3, by simpa using hk4,
            by simpa using hk5, hk6⟩
        next hrun =>
          rcases List.mem_cons.mp h with rfl | htail
          · refine ⟨0, Nat.le_refl 0, by omega, by simp, ?_, by simp, ?_⟩
            · simp only [List.drop_zero, List.head?]
              have := (Bool.and_eq_true _ _).mp hc
              simp only [decide_eq_true_eq] at this
              exact congrArg some this.1
            · simpa [List.isEmpty_iff] using hrun
          · obtain ⟨k, hk1, hk2, hk3, hk4, hk5, hk6⟩ := ih htail
            exact ⟨k + 1, by omega, by omega, by simpa using hk3, by simpa using hk4,
              by simpa using hk5, hk6⟩
      next hc =>
        obtain ⟨k, hk1, hk2, hk3, hk4, hk5, hk6⟩ := ih h
        exact ⟨k + 1, by omega, by omega, by simpa using hk3, by simpa using hk4,
          by simpa using hk5, hk6⟩

private theorem refScan_lb {cs : Str} {skip : Nat} {prev : Option Char}
    {i : Nat} {m : Nat × Str} (h : m ∈ refScan skip prev i cs) :
    i + skip ≤ m.1 := by
  obtain ⟨k, hk1, hk2, -⟩ := refScan_mem h
  omega

private theorem refScan_pairwise {cs : Str} :
    ∀ {skip : Nat} {prev : Option Char} {i : Nat},
      List.Pairwise (fun a b : Nat × Str => a.1 + 1 + a.2.length ≤ b.1)
        (refScan skip prev i cs) := by
  induction cs with
  | nil =>
    intro skip prev i
    cases skip <;> simp [refScan]
  | cons c rest ih =>
    intro skip prev i
    cases skip with
    | succ s => simpa only [refScan] using ih
    | zero =>
      simp only [refScan]
      split
      next hc =>
        split
        next hrun => exact ih
        next hrun =>
          refine List.Pairwise.cons ?_ ih
          intro b hb
          have := refScan_lb hb
          dsimp only
          omega
      next hc => exact ih

private theorem pairwise_filterMap_trans {α β : Type} {R : α → α → Prop}
    {S : β → β → Prop} (f : α → Option β) {l : List α}
    (hl : List.Pairwise R l)
    (hf : ∀ a b x y, R a b → f a = some x → f b = some y → S x y) :
    List.Pairwise S (l.filterMap f) := by
  induction l with
  | nil => simp
  | cons a l ih =>
    rcases List.pairwise_cons.mp hl with ⟨hhead, htail⟩
    cases hfa : f a with
    | none => simpa [List.filterMap_cons, hfa] using ih htail
    | some x =>
      simp only [List.filterMap_cons, hfa]
      refine List.Pairwise.cons ?_ (ih htail)
      intro y hy
      obtain ⟨b, hb, hfb⟩ := List.mem_filterMap.mp hy
      exact hf a b x y (hhead b hb) hfa hfb

private theorem extractReferences_mem_spec {cs : Str} {r : AtReference}
    (h : r ∈ extractReferences cs) :
    ∃ m ∈ refScan 0 none 0 cs,
      r.startIndex = m.1 ∧ r.raw = '@' :: m.2 ∧ r.path = m.2 ∧
      r.endIndex = m.1 + (m.2.length + 1) ∧
      isInsideCodeSpan m.1 (findCodeSpanRanges cs) = false := by
  simp only [extractReferences] at h
  obtain ⟨m, hm, hf⟩ := List.mem_filterMap.mp h
  refine ⟨m, hm, ?_⟩
  split_ifs at hf with h1 h2 h3 <;>
    first
      | exact Option.noConfusion hf
      | · obtain rfl := (Option.some_inj.mp hf).symm
          exact ⟨rfl, rfl, rfl, by simp, by simpa using h1⟩

private theorem extract_pairwise_aux (cs : Str) :
    List.Pairwise
      (fun a b : AtReference => a.endIndex ≤ b.startIndex ∧ a.startIndex < b.startIndex)
      (extractReferences cs) := by
  · simp only [extractReferences]
    refine pairwise_filterMap_trans _ refScan_pairwise ?_
    intro a b x y hR hfa hfb
    have hxa : x.startIndex = a.1 ∧ x.endIndex = a.1 + (a.2.length + 1) := by
      split_ifs at hfa <;>
        first
          | exact Option.noConfusion hfa
          | · obtain rfl := (Option.some_inj.mp hfa).symm
              exact ⟨rfl, by simp⟩
    have hyb : y.startIndex = b.1 := by
      split_ifs at hfb <;>
        first
          | exact Option.noConfusion hfb
          | · obtain rfl := (Option.some_inj.mp hfb).symm
              rfl
    refine ⟨?_, ?_⟩ <;> omega

private theorem extract_forall_aux (cs : Str) :
    (extractReferences cs).Forall (fun r =>
      r.startIndex < r.endIndex ∧ r.endIndex ≤ cs.length ∧
      r.endIndex - r.startIndex = r.raw.length ∧
      r.raw = (cs.drop r.startIndex).take (r.endIndex - r.startIndex) ∧
      r.raw.head? = some '@' ∧ r.path = r.raw.drop 1) := by
  · rw [List.forall_iff_forall_mem]
    intro r hr
    obtain ⟨m, hm, hs, hraw, hpath, hend, -⟩ := extractReferences_mem_spec hr
    obtain ⟨k, -, hk2, hk3, hk4, hk5, hk6⟩ := refScan_mem hm
    have hk0 : k = m.1 := by omega
    subst hk0
    have hlen_run : m.2.length ≤ cs.length - (m.1 + 1) := by
      have h1 : m.2.length ≤ (cs.drop (m.1 + 1)).length := by
        rw [hk5]; exact (List.takeWhile_prefix _).length_le
      simpa [List.length_drop] using h1
    have hcons : cs.drop m.1 = '@' :: cs.drop (m.1 + 1) := by
      rcases hh : cs.drop m.1 with _ | ⟨a, t⟩
      · rw [hh] at hk4; simp at hk4
      · rw [hh] at hk4
        simp only [List.head?] at hk4
        obtain rfl := Option.some_inj.mp hk4
        have ht : t = cs.drop (m.1 + 1) := by
          have := congrArg (List.drop 1) hh
          simpa [List.drop_drop, Nat.add_comm] using this.symm
        rw [ht]
    have hslice : (cs.drop r.startIndex).take (r.endIndex - r.startIndex) = r.raw := by
      rw [hs, hend, hraw]
      have : m.1 + (m.2.length + 1) - m.1 = m.2.length + 1 := by omega
      rw [this, hcons]
      simp only [List.take_succ_cons]
      congr 1
      have hpre : m.2 <+: cs.drop (m.1 + 1) := by rw [hk5]; exact List.takeWhile_prefix _
      exact ((List.prefix_iff_eq_take.mp hpre).symm)
    refine ⟨by omega, by omega, by rw [hs, hend, hraw]; simp [List.length_cons],
      hslice.symm, by rw [hraw]; rfl, by rw [hraw, hpath]; rfl⟩

/-- C10: the reference list produced by `extractReferences` is strictly
increasing in `startIndex` with pairwise-disjoint spans inside the text,
and each element's span length equals its raw length, its raw text is the
corresponding slice of the input beginning with `@`, and its path is the
raw text without the leading `@`. -/
theorem C10_extract_invariants (cs : Str) :
    List.Pairwise
      (fun a b : AtReference => a.endIndex ≤ b.startIndex ∧ a.startIndex < b.startIndex)
      (extractReferences cs) ∧
    (extractReferences cs).Forall (fun r =>
      r.startIndex < r.endIndex ∧ r.endIndex ≤ cs.length ∧
      r.endIndex - r.startIndex = r.raw.length ∧
      r.raw = (cs.drop r.startIndex).take (r.endIndex - r.startIndex) ∧
      r.raw.head? = some '@' ∧ r.path = r.raw.drop 1) :=
  ⟨extract_pairwise_aux cs, extract_forall_aux cs⟩

/-- C2: a candidate whose `@` lies inside a code span (fenced block or
inline backtick span) is never extracted; concretely, a backtick-enclosed
`@src/file.ts` yields zero references, the same candidate outside
backticks still yields one even when another occurrence is inside
backticks elsewhere in the same text, and occurrences inside a fenced
block or inside an inline span are dropped while one outside is kept. -/
theorem C2_code_span_rejection :
    (∀ cs : Str, (extractReferences cs).Forall (fun r =>
      isInsideCodeSpan r.startIndex (findCodeSpanRanges cs) = false)) ∧
    extractReferences (strL "\x60@src/file.ts\x60") = [] ∧
    (extractReferences (strL "@src/file.ts and \x60@src/file.ts\x60")).map
      (fun r => (r.raw, r.startIndex, r.endIndex)) = [(strL "@src/file.ts", 0, 12)] ∧
    (extractReferences (strL "\x60\x60\x60\n@src/file.ts\n\x60\x60\x60\n@src/file.ts")).map
      (fun r => (r.raw, r.startIndex)) = [(strL "@src/file.ts", 21)] ∧
    (extractReferences (strL "a \x60x @src/file.ts\x60 @src/file.ts")).map
      (fun r => (r.raw, r.startIndex)) = [(strL "@src/file.ts", 19)] := by
  refine ⟨?_, by decide, by decide, by decide, by decide⟩
  intro cs
  rw [List.forall_iff_forall_mem]
  intro r hr
  obtain ⟨m, hm, hs, -, -, -, hspan⟩ := extractReferences_mem_spec hr
  rw [hs]
  exact hspan

/-! ## Heading-adjustment claim (C8) -/

/-- C6: compiling a document text that contains no `@` references, as a
root compilation in the default `normalize` heading mode, returns the text
unchanged except that a leading front-matter block is stripped (and
reports no references and untouched run state); compiling an
already-fully-expanded document is therefore idempotent up to front-matter
stripping.  (`stripFrontMatter` itself is modelled from the spec, its
implementation not being among the provided sources.) -/
theorem C6_no_refs_idempotent (fs : FileSystem) (c : Str) (opts : CompileOptions)
    (hmode : opts.headingMode = HeadingMode.normalize)
    (hrefs : extractReferences (stripFrontMatter c) = []) :
    compileContent fs c opts = some
      { compiledContent := stripFrontMatter c, references := [],
        counts := [], imported := [] } := by
  simp only [compileContent, hmode, compileContentRecursiveF, hrefs,
    sortByStartDesc, analyzeHeadingContext, prescanFirstOcc, List.foldr,
    List.foldl, List.map_nil, processRefs]
  simp

/-- Witness for `C6_no_refs_idempotent` on a concrete ref-free document
with front matter. -/
theorem C6_no_refs_idempotent_witness :
    compileContent ({} : FileSystem) (strL "---\nt: x\n---\n# A\nplain\n") {} =
      some { compiledContent := strL "# A\nplain\n", references := [],
             counts := [], imported := [] } := by
  have h := C6_no_refs_idempotent ({} : FileSystem)
    (strL "---\nt: x\n---\n# A\nplain\n") {} (by rfl) (by decide)
  rw [show stripFrontMatter (strL "---\nt: x\n---\n# A\nplain\n") =
    strL "# A\nplain\n" from by decide] at h
  exact h

/-- Pointwise dominance between import-count maps: every counter is at
least as large, and no entry disappears. -/
def countsLE (m1 m2 : List (Str × Nat)) : Prop :=
  ∀ p : Str, (mapGet m1 p).getD 0 ≤ (mapGet m2 p).getD 0 ∧
    ((mapGet m1 p).isSome → (mapGet m2 p).isSome)

private theorem countsLE_refl (m : List (Str × Nat)) : countsLE m m :=
  fun _ => ⟨Nat.le_refl _, id⟩

private theorem countsLE_trans {m1 m2 m3 : List (Str × Nat)}
    (h12 : countsLE m1 m2) (h23 : countsLE m2 m3) : countsLE m1 m3 :=
  fun p => ⟨Nat.le_trans (h12 p).1 (h23 p).1, fun h => (h23 p).2 ((h12 p).2 h)⟩

private theorem mapGet_set_self (m : List (Str × Nat)) (k : Str) (v : Nat) :
    mapGet (mapSet m k v) k = some v := by
  induction m with
  | nil => simp [mapGet, mapSet, List.lookup]
  | cons e rest ih =>
    obtain ⟨k', v'⟩ := e
    by_cases h : k' = k
    · subst h
      simp [mapGet, mapSet, List.lookup]
    · simp only [mapSet, if_neg h]
      simpa [mapGet, List.lookup, beq_eq_false_iff_ne.mpr (Ne.symm h)] using ih

private theorem mapGet_set_other (m : List (Str × Nat)) (k p : Str) (v : Nat)
    (hne : p ≠ k) : mapGet (mapSet m k v) p = mapGet m p := by
  induction m with
  | nil => simp [mapGet, mapSet, List.lookup, beq_eq_false_iff_ne.mpr hne]
  | cons e rest ih =>
    obtain ⟨k', v'⟩ := e
    by_cases h : k' = k
    · subst h
      simp [mapGet, mapSet, List.lookup, beq_eq_false_iff_ne.mpr hne]
    · simp only [mapSet, if_neg h]
      by_cases hp : k' = p
      · subst hp
        simp [mapGet, List.lookup]
      · have : (p == k') = false := beq_eq_false_iff_ne.mpr (Ne.symm hp)
        simpa [mapGet, List.lookup, this] using ih

private theorem mapSet_incr_le (m : List (Str × Nat)) (k : Str) :
    countsLE m (mapSet m k ((mapGet m k).getD 0 + 1)) := by
  intro p
  by_cases h : p = k
  · subst h
    rw [mapGet_set_self]
    constructor
    · simp only [Option.getD_some]
      omega
    · intro _
      simp
  · rw [mapGet_set_other _ _ _ _ h]
    exact ⟨Nat.le_refl _, id⟩

private theorem processRefs_counts_mono
    (recur : Str → Str → List Str → List (Str × Nat) → List Str → Int →
      Option CompileInner)
    (ctx : RunCtx)
    (hrec : ∀ content cur stack counts imported hctx out,
      recur content cur stack counts imported hctx = some out →
      countsLE counts out.counts) :
    ∀ (refs : List AtReference) (content : Str) (counts : List (Str × Nat))
      (imported : List Str) (acc : List CompiledReference)
      (out : Str × List CompiledReference × List (Str × Nat) × List Str),
      processRefs recur ctx refs content counts imported acc = some out →
      countsLE counts out.2.2.1 := by
  intro refs
  induction refs with
  | nil =>
    intro content counts imported acc out h
    simp only [processRefs, Option.some_inj] at h
    rw [← h]
    exact countsLE_refl counts
  | cons ref rest ih =>
    intro content counts imported acc out h
    simp only [processRefs] at h
    split_ifs at h with h1 h2 h3 h4
    all_goals
      first
        | exact ih _ _ _ _ _ h
        | (have step := ih _ _ _ _ _ h
           exact countsLE_trans (mapSet_incr_le _ _) step)
        | (split at h
           next =>
             have step := ih _ _ _ _ _ h
             exact countsLE_trans (mapSet_incr_le _ _) step
           next fileContent heq =>
             split at h
             next => exact Option.noConfusion h
             next nested hnested =>
               have step := ih _ _ _ _ _ h
               have hmid := hrec _ _ _ _ _ _ _ hnested
               exact countsLE_trans (mapSet_incr_le _ _) (countsLE_trans hmid step))

/-- C9: within one run of the compiler engine the run-scoped import-count
map only ever grows: each successful import stores the previous count plus
one for that path, and after any (sub)compilation every per-path counter is
at least what it was before and no entry has been removed. -/
theorem C9_import_counts_monotone :
    (∀ (m : List (Str × Nat)) (k : Str),
      mapGet (mapSet m k ((mapGet m k).getD 0 + 1)) k =
        some ((mapGet m k).getD 0 + 1)) ∧
    ∀ (fuel : Nat) (fs : FileSystem) (opts : CompileOptions) (content cur : Str)
      (stack : List Str) (counts : List (Str × Nat)) (imported : List Str)
      (hctx : Int) (out : CompileInner),
      compileContentRecursiveF fuel fs opts content cur stack counts imported
        hctx = some out →
      countsLE counts out.counts := by
  refine ⟨fun m k => mapGet_set_self m k _, ?_⟩
  intro fuel
  induction fuel with
  | zero =>
    intro fs opts content cur stack counts imported hctx out h
    exact Option.noConfusion h
  | succ fuel ih =>
    intro fs opts content cur stack counts imported hctx out h
    simp only [compileContentRecursiveF] at h
    split at h
    next => exact Option.noConfusion h
    next cc acc counts' imported' hval =>
      have hmono := processRefs_counts_mono (compileContentRecursiveF fuel fs opts)
        _ (fun content' cur' stack' counts'' imported'' hctx' out' h' =>
            ih fs opts content' cur' stack' counts'' imported'' hctx' out' h')
        _ _ _ _ _ _ hval
      obtain rfl := (Option.some_inj.mp h).symm
      exact hmono

/-- Witness for `C9_import_counts_monotone` on a one-step compilation of a
reference-free document. -/
theorem C9_import_counts_monotone_witness :
    (mapGet ([] : List (Str × Nat)) (strL "/x")).getD 0 ≤
      (mapGet ({ compiledContent := strL "hi", references := [],
                 counts := [], imported := [] } : CompileInner).counts
        (strL "/x")).getD 0 := by
  have h := C9_import_counts_monotone.2 1 ({} : FileSystem) {} (strL "hi")
    (strL "/f.md") [] [] [] (-1)
    { compiledContent := strL "hi", references := [], counts := [], imported := [] }
    (by decide)
  exact (h (strL "/x")).1

private theorem sortByStartDesc_single (r : AtReference) :
    sortByStartDesc [r] = [r] := rfl

private theorem sortByStartDesc_pair {r1 r2 : AtReference}
    (h : r1.startIndex < r2.startIndex) :
    sortByStartDesc [r1, r2] = [r2, r1] := by
  simp only [sortByStartDesc, List.foldr, insertDesc]
  rw [if_neg (by omega)]

private theorem take_of_spliced {sc rest : Str} {s2 s1 : Nat}
    (h : s1 ≤ s2) (hlen : s2 ≤ sc.length) :
    (sc.take s2 ++ rest).take s1 = sc.take s1 := by
  rw [List.take_append_eq_append_take]
  have h1 : (sc.take s2).length = s2 := by
    simp [List.length_take]
    omega
  rw [h1, show s1 - s2 = 0 from by omega, List.take_zero, List.append_nil,
    List.take_take, show min s1 s2 = s1 from by omega]

private theorem drop_of_spliced {sc rest : Str} {s2 e1 : Nat}
    (h : e1 ≤ s2) (hlen : s2 ≤ sc.length) :
    (sc.take s2 ++ rest).drop e1 = (sc.take s2).drop e1 ++ rest := by
  rw [List.drop_append_eq_append_drop]
  have h1 : (sc.take s2).length = s2 := by
    simp [List.length_take]
    omega
  rw [h1, show e1 - s2 = 0 from by omega, List.drop_zero]

/-- A referenced document with no references and no headings of its own
compiles to its stripped content, leaving the run state untouched. -/
private theorem compile_leaf (fuel : Nat) (fs : FileSystem)
    (opts : CompileOptions) (content cur : Str) (stack : List Str)
    (counts : List (Str × Nat)) (imported : List Str) (L : Nat)
    (hmode : opts.headingMode = HeadingMode.normalize)
    (hrefs : extractReferences (stripFrontMatter content) = [])
    (hheads : extractHeadings (stripFrontMatter content) = []) :
    compileContentRecursiveF (fuel + 1) fs opts content cur stack counts
      imported (L : Int) =
      some { compiledContent := stripFrontMatter content, references := [],
             counts := counts, imported := imported } := by
  simp only [compileContentRecursiveF, hrefs, hmode, sortByStartDesc,
    List.foldr, analyzeHeadingContext, List.map_nil, prescanFirstOcc,
    List.foldl, processRefs, List.reverse_nil]
  simp [normalizeHeadings, hheads]

private theorem files_len_succ {fs : FileSystem} {p t : Str}
    (ht : fs.files.lookup p = some t) : ∃ m, fs.files.length = m + 1 := by
  cases hfe : fs.files with
  | nil => rw [hfe] at ht; simp [List.lookup] at ht
  | cons a l => exact ⟨l.length, by simp [hfe]⟩

private theorem C3_true_case (fs : FileSystem) (opts : CompileOptions)
    (c t p bp : Str) (r1 r2 : AtReference)
    (hmode : opts.headingMode = HeadingMode.normalize)
    (hwrap : opts.contentWrapper = none)
    (hbp : opts.basePath = some bp)
    (hrefs : extractReferences (stripFrontMatter c) = [r1, r2])
    (hr1 : resolvePath fs r1.path
      { basePath := some bp, tryExtensions := opts.tryExtensions } =
      { resolvedPath := p, existsb := true, isDirectory := false })
    (hr2 : resolvePath fs r2.path
      { basePath := some bp, tryExtensions := opts.tryExtensions } =
      { resolvedPath := p, existsb := true, isDirectory := false })
    (ht : fs.files.lookup p = some t)
    (htrefs : extractReferences (stripFrontMatter t) = [])
    (htheads : extractHeadings (stripFrontMatter t) = []) :
    compileContent fs c { opts with optimizeDuplicates := true } = some
      { compiledContent :=
          (stripFrontMatter c).take r1.startIndex ++
            (defaultContentWrapper (stripFrontMatter t) p r1 ++
              (((stripFrontMatter c).take r2.startIndex).drop r1.endIndex ++
                (referenceWrapper p ++ (stripFrontMatter c).drop r2.endIndex))),
        references :=
          [{ reference := r1, resolvedPath := p, found := true,
             content := some (stripFrontMatter t), importCount := some 2,
             importedFrom := some (pathJoin bp (strL "__virtual__.md")) },
           { reference := r2, resolvedPath := p, found := true,
             content := some [], importCount := some 1,
             importedFrom := some (pathJoin bp (strL "__virtual__.md")) }],
        counts := [(p, 2)], imported := [p] } := by
  obtain ⟨m, hm⟩ := files_len_succ ht
  have hpw := extract_pairwise_aux (stripFrontMatter c)
  rw [hrefs] at hpw
  have h12 := (List.pairwise_cons.mp hpw).1 r2 (List.mem_cons_self _ _)
  have hfa := extract_forall_aux (stripFrontMatter c)
  rw [hrefs] at hfa
  obtain ⟨hf1, hf2⟩ := hfa
  have hprescan : prescanFirstOcc fs
      { basePath := some bp, tryExtensions := opts.tryExtensions } []
      [r1, r2] = [r1.startIndex] := by
    simp [prescanFirstOcc, hr1, hr2]
  have hne12 : (r2.startIndex == r1.startIndex) = false :=
    beq_eq_false_iff_ne.mpr (by omega)
  simp only [compileContent, hbp, Option.getD_some, hm, hmode]
  rw [compileContentRecursiveF.eq_2]
  simp only [hrefs, hmode, sortByStartDesc_pair h12.2, Option.getD_some]
  simp only [hprescan, if_true]
  rw [processRefs.eq_2]
  simp only [hr2]
  simp only [List.contains, List.elem, hne12, Bool.and_true, Bool.and_false,
    Bool.not_false, Bool.not_true, Bool.and_self, if_false, if_true,
    Bool.true_and, Bool.false_and, mapGet, mapSet, List.lookup,
    Option.getD_none, beq_self_eq_true, Option.getD_some]
  simp only [Bool.false_eq_true, if_false]
  rw [processRefs.eq_2]
  simp only [hr1]
  simp only [List.contains, List.elem, beq_self_eq_true, Bool.or_true,
    Bool.true_or, Bool.and_true, Bool.and_false, Bool.not_true,
    Bool.not_false, Bool.false_and, Bool.true_and, Bool.and_self,
    if_true, if_false, Bool.false_eq_true,
    mapGet, mapSet, List.lookup, Option.getD_none, Option.getD_some, ht]
  simp only [reduceCtorEq, if_false, setAdd, List.contains, List.elem,
    Option.map_some', Option.getD_some, List.nil_append]
  rw [compile_leaf m fs
    { opts with basePath := some bp, optimizeDuplicates := true,
                headingMode := HeadingMode.normalize }
    t p _ _ _ _ rfl htrefs htheads]
  obtain ⟨h1a, h1b, -⟩ := hf1
  obtain ⟨h2a, h2b, -⟩ := hf2
  have hs2 : r2.startIndex ≤ (stripFrontMatter c).length := by omega
  have htake : List.take r1.startIndex
      (List.take r2.startIndex (stripFrontMatter c) ++ referenceWrapper p ++
        List.drop r2.endIndex (stripFrontMatter c)) =
      List.take r1.startIndex (stripFrontMatter c) := by
    rw [List.append_assoc]
    exact take_of_spliced (by omega) hs2
  have hdrop : List.drop r1.endIndex
      (List.take r2.startIndex (stripFrontMatter c) ++ referenceWrapper p ++
        List.drop r2.endIndex (stripFrontMatter c)) =
      List.drop r1.endIndex (List.take r2.startIndex (stripFrontMatter c)) ++
        (referenceWrapper p ++ List.drop r2.endIndex (stripFrontMatter c)) := by
    rw [List.append_assoc]
    exact drop_of_spliced h12.1 hs2
  simp only [wrapWith, hwrap, Option.getD_none, htake, hdrop, processRefs,
    List.reverse_nil, List.reverse_append, List.reverse_cons, List.nil_append,
    List.append_nil, List.singleton_append, List.cons_append]
  norm_num

private theorem C3_false_case (fs : FileSystem) (opts : CompileOptions)
    (c t p bp : Str) (r1 r2 : AtReference)
    (hmode : opts.headingMode = HeadingMode.normalize)
    (hwrap : opts.contentWrapper = none)
    (hbp : opts.basePath = some bp)
    (hrefs : extractReferences (stripFrontMatter c) = [r1, r2])
    (hr1 : resolvePath fs r1.path
      { basePath := some bp, tryExtensions := opts.tryExtensions } =
      { resolvedPath := p, existsb := true, isDirectory := false })
    (hr2 : resolvePath fs r2.path
      { basePath := some bp, tryExtensions := opts.tryExtensions } =
      { resolvedPath := p, existsb := true, isDirectory := false })
    (ht : fs.files.lookup p = some t)
    (htrefs : extractReferences (stripFrontMatter t) = [])
    (htheads : extractHeadings (stripFrontMatter t) = []) :
    compileContent fs c { opts with optimizeDuplicates := false } = some
      { compiledContent :=
          (stripFrontMatter c).take r1.startIndex ++
            (defaultContentWrapper (stripFrontMatter t) p r1 ++
              (((stripFrontMatter c).take r2.startIndex).drop r1.endIndex ++
                (defaultContentWrapper (stripFrontMatter t) p r2 ++
                  (stripFrontMatter c).drop r2.endIndex))),
        references :=
          [{ reference := r1, resolvedPath := p, found := true,
             content := some (stripFrontMatter t), importCount := some 2,
             importedFrom := some (pathJoin bp (strL "__virtual__.md")) },
           { reference := r2, resolvedPath := p, found := true,
             content := some (stripFrontMatter t), importCount := some 1,
             importedFrom := some (pathJoin bp (strL "__virtual__.md")) }],
        counts := [(p, 2)], imported := [p] } := by
  obtain ⟨m, hm⟩ := files_len_succ ht
  have hpw := extract_pairwise_aux (stripFrontMatter c)
  rw [hrefs] at hpw
  have h12 := (List.pairwise_cons.mp hpw).1 r2 (List.mem_cons_self _ _)
  have hfa := extract_forall_aux (stripFrontMatter c)
  rw [hrefs] at hfa
  obtain ⟨hf1, hf2⟩ := hfa
  have hne12 : (r2.startIndex == r1.startIndex) = false :=
    beq_eq_false_iff_ne.mpr (by omega)
  simp only [compileContent, hbp, Option.getD_some, hm, hmode]
  rw [compileContentRecursiveF.eq_2]
  simp only [hrefs, hmode, sortByStartDesc_pair h12.2, Option.getD_some,
    Bool.false_eq_true, if_false]
  rw [processRefs.eq_2]
  simp only [hr2]
  simp only [List.contains, List.elem, hne12, Bool.and_true, Bool.and_false,
    Bool.not_false, Bool.not_true, Bool.and_self, if_false, if_true,
    Bool.true_and, Bool.false_and, Bool.false_eq_true, mapGet, mapSet,
    List.lookup, Option.getD_none, beq_self_eq_true, Option.getD_some, ht]
  simp only [reduceCtorEq, if_false, setAdd, List.contains, List.elem,
    Option.map_some', Option.getD_some, List.nil_append]
  rw [compile_leaf m fs
    { opts with basePath := some bp, optimizeDuplicates := false,
                headingMode := HeadingMode.normalize }
    t p _ _ _ _ rfl htrefs htheads]
  dsimp only
  rw [processRefs.eq_2]
  simp only [hr1]
  simp only [List.contains, List.elem, beq_self_eq_true, Bool.or_true,
    Bool.true_or, Bool.and_true, Bool.and_false, Bool.not_true,
    Bool.not_false, Bool.false_and, Bool.true_and, Bool.and_self,
    if_true, if_false, Bool.false_eq_true, Bool.or_false,
    mapGet, mapSet, List.lookup, Option.getD_none, Option.getD_some, ht,
    hne12]
  simp only [reduceCtorEq, if_false, if_true, setAdd, List.contains,
    List.elem, beq_self_eq_true, Bool.or_true, Bool.true_or, Bool.or_false,
    Option.map_some', Option.getD_some, List.nil_append]
  rw [compile_leaf m fs
    { opts with basePath := some bp, optimizeDuplicates := false,
                headingMode := HeadingMode.normalize }
    t p _ _ _ _ rfl htrefs htheads]
  obtain ⟨h1a, h1b, -⟩ := hf1
  obtain ⟨h2a, h2b, -⟩ := hf2
  have hs2 : r2.startIndex ≤ (stripFrontMatter c).length := by omega
  have htake : List.take r1.startIndex
      (List.take r2.startIndex (stripFrontMatter c) ++
        defaultContentWrapper (stripFrontMatter t) p r2 ++
        List.drop r2.endIndex (stripFrontMatter c)) =
      List.take r1.startIndex (stripFrontMatter c) := by
    rw [List.append_assoc]
    exact take_of_spliced (by omega) hs2
  have hdrop : List.drop r1.endIndex
      (List.take r2.startIndex (stripFrontMatter c) ++
        defaultContentWrapper (stripFrontMatter t) p r2 ++
        List.drop r2.endIndex (stripFrontMatter c)) =
      List.drop r1.endIndex (List.take r2.startIndex (stripFrontMatter c)) ++
        (defaultContentWrapper (stripFrontMatter t) p r2 ++
          List.drop r2.endIndex (stripFrontMatter c)) := by
    rw [List.append_assoc]
    exact drop_of_spliced h12.1 hs2
  simp only [wrapWith, hwrap, Option.getD_none, htake, hdrop, processRefs,
    List.reverse_nil, List.reverse_append, List.reverse_cons, List.nil_append,
    List.append_nil, List.singleton_append, List.cons_append]
  norm_num

/-- C3: With duplicate optimization enabled, of two references resolving to
the same existing file the first occurrence in document order is replaced by
the fully expanded wrapped content and the second by the self-closing stub
carrying the same resolved absolute path; with it disabled, both occurrences
are replaced by full expanded content independently. -/
theorem C3_duplicate_optimization (fs : FileSystem) (opts : CompileOptions)
    (c t p bp : Str) (r1 r2 : AtReference)
    (hmode : opts.headingMode = HeadingMode.normalize)
    (hwrap : opts.contentWrapper = none)
    (hbp : opts.basePath = some bp)
    (hrefs : extractReferences (stripFrontMatter c) = [r1, r2])
    (hr1 : resolvePath fs r1.path
      { basePath := some bp, tryExtensions := opts.tryExtensions } =
      { resolvedPath := p, existsb := true, isDirectory := false })
    (hr2 : resolvePath fs r2.path
      { basePath := some bp, tryExtensions := opts.tryExtensions } =
      { resolvedPath := p, existsb := true, isDirectory := false })
    (ht : fs.files.lookup p = some t)
    (htrefs : extractReferences (stripFrontMatter t) = [])
    (htheads : extractHeadings (stripFrontMatter t) = []) :
    (compileContent fs c { opts with optimizeDuplicates := true } = some
      { compiledContent :=
          (stripFrontMatter c).take r1.startIndex ++
            (defaultContentWrapper (stripFrontMatter t) p r1 ++
              (((stripFrontMatter c).take r2.startIndex).drop r1.endIndex ++
                (referenceWrapper p ++ (stripFrontMatter c).drop r2.endIndex))),
        references :=
          [{ reference := r1, resolvedPath := p, found := true,
             content := some (stripFrontMatter t), importCount := some 2,
             importedFrom := some (pathJoin bp (strL "__virtual__.md")) },
           { reference := r2, resolvedPath := p, found := true,
             content := some [], importCount := some 1,
             importedFrom := some (pathJoin bp (strL "__virtual__.md")) }],
        counts := [(p, 2)], imported := [p] }) ∧
    (compileContent fs c { opts with optimizeDuplicates := false } = some
      { compiledContent :=
          (stripFrontMatter c).take r1.startIndex ++
            (defaultContentWrapper (stripFrontMatter t) p r1 ++
              (((stripFrontMatter c).take r2.startIndex).drop r1.endIndex ++
                (defaultContentWrapper (stripFrontMatter t) p r2 ++
                  (stripFrontMatter c).drop r2.endIndex))),
        references :=
          [{ reference := r1, resolvedPath := p, found := true,
             content := some (stripFrontMatter t), importCount := some 2,
             importedFrom := some (pathJoin bp (strL "__virtual__.md")) },
           { reference := r2, resolvedPath := p, found := true,
             content := some (stripFrontMatter t), importCount := some 1,
             importedFrom := some (pathJoin bp (strL "__virtual__.md")) }],
        counts := [(p, 2)], imported := [p] }) :=
  ⟨C3_true_case fs opts c t p bp r1 r2 hmode hwrap hbp hrefs hr1 hr2 ht
     htrefs htheads,
   C3_false_case fs opts c t p bp r1 r2 hmode hwrap hbp hrefs hr1 hr2 ht
     htrefs htheads⟩

/-- A two-reference document over a one-file filesystem instantiating the
duplicate-optimization theorem. -/
def c0 : Str := strL "@a.md @a.md
"

def t0 : Str := strL "hello
"

def p0 : Str := strL "/b/a.md"

def bp0 : Str := strL "/b"

def fs0 : FileSystem := { files := [(p0, t0)], dirs := [], cwd := bp0 }

def opts0 : CompileOptions := { basePath := some bp0 }

def r10 : AtReference :=
  { raw := strL "@a.md", path := strL "a.md", startIndex := 0, endIndex := 5,
    line := 1, column := 1 }

def r20 : AtReference :=
  { raw := strL "@a.md", path := strL "a.md", startIndex := 6, endIndex := 11,
    line := 1, column := 7 }

theorem C3_duplicate_optimization_witness :
    (compileContent fs0 c0 { opts0 with optimizeDuplicates := true } = some
      { compiledContent :=
          (stripFrontMatter c0).take r10.startIndex ++
            (defaultContentWrapper (stripFrontMatter t0) p0 r10 ++
              (((stripFrontMatter c0).take r20.startIndex).drop r10.endIndex ++
                (referenceWrapper p0 ++ (stripFrontMatter c0).drop r20.endIndex))),
        references :=
          [{ reference := r10, resolvedPath := p0, found := true,
             content := some (stripFrontMatter t0), importCount := some 2,
             importedFrom := some (pathJoin bp0 (strL "__virtual__.md")) },
           { reference := r20, resolvedPath := p0, found := true,
             content := some [], importCount := some 1,
             importedFrom := some (pathJoin bp0 (strL "__virtual__.md")) }],
        counts := [(p0, 2)], imported := [p0] }) ∧
    (compileContent fs0 c0 { opts0 with optimizeDuplicates := false } = some
      { compiledContent :=
          (stripFrontMatter c0).take r10.startIndex ++
            (defaultContentWrapper (stripFrontMatter t0) p0 r10 ++
              (((stripFrontMatter c0).take r20.startIndex).drop r10.endIndex ++
                (defaultContentWrapper (stripFrontMatter t0) p0 r20 ++
                  (stripFrontMatter c0).drop r20.endIndex))),
        references :=
          [{ reference := r10, resolvedPath := p0, found := true,
             content := some (stripFrontMatter t0), importCount := some 2,
             importedFrom := some (pathJoin bp0 (strL "__virtual__.md")) },
           { reference := r20, resolvedPath := p0, found := true,
             content := some (stripFrontMatter t0), importCount := some 1,
             importedFrom := some (pathJoin bp0 (strL "__virtual__.md")) }],
        counts := [(p0, 2)], imported := [p0] }) :=
  C3_duplicate_optimization fs0 opts0 c0 t0 p0 bp0 r10 r20 rfl rfl rfl rfl
    rfl rfl rfl rfl rfl

/-- A parent with a level-2 context heading importing the spec's
Commander/Usage/Example child, instantiating the normalization theorem. -/
def c1 : Str := strL "## Tools\n\n@cmd.md\n"

def bp1 : Str := strL "/b"

private theorem lookup_some_len {l : List (Str × Str)} {k : Str} {v : Str}
    (h : l.lookup k = some v) : 1 ≤ l.length := by
  cases l with
  | nil => simp [List.lookup] at h
  | cons a t => simp

private theorem lookup_two_len {l : List (Str × Str)} {pa pb a b : Str}
    (hne : pa ≠ pb) (ha : l.lookup pa = some a)
    (hb : l.lookup pb = some b) : 2 ≤ l.length := by
  induction l with
  | nil => simp [List.lookup] at ha
  | cons x t ih =>
    obtain ⟨k, v⟩ := x
    cases hpa : (pa == k) with
    | true =>
      have hpb : (pb == k) = false :=
        beq_eq_false_iff_ne.mpr (fun hh => hne (by rw [eq_of_beq hpa, hh]))
      simp only [List.lookup, hpb] at hb
      have := lookup_some_len hb
      simp only [List.length_cons]
      omega
    | false =>
      simp only [List.lookup, hpa] at ha
      cases hpb : (pb == k) with
      | true =>
        have := lookup_some_len ha
        simp only [List.length_cons]
        omega
      | false =>
        simp only [List.lookup, hpb] at hb
        have := ih ha hb
        simp only [List.length_cons]
        omega

private theorem files_len_two {fs : FileSystem} {pa pb a b : Str}
    (hne : pa ≠ pb) (ha : fs.files.lookup pa = some a)
    (hb : fs.files.lookup pb = some b) :
    ∃ m, fs.files.length = m + 1 + 1 := by
  have h := lookup_two_len hne ha hb
  exact ⟨fs.files.length - 2, by omega⟩

/-- A referenced document whose single reference resolves to a path already
on the ancestor stack compiles without re-entering that path: it keeps its
stripped content (normalized to the context level plus one) and reports the
one circular record. -/
private theorem compile_child_circ (fuel : Nat) (fs : FileSystem)
    (opts : CompileOptions) (content cur : Str) (stack : List Str)
    (counts : List (Str × Nat)) (imported : List Str)
    (pX bpv : Str) (rb : AtReference) (L : Nat)
    (hmode : opts.headingMode = HeadingMode.normalize)
    (hdup : opts.optimizeDuplicates = false)
    (hbp : opts.basePath = some bpv)
    (hrefs : extractReferences (stripFrontMatter content) = [rb])
    (hr : resolvePath fs rb.path
      { basePath := some bpv, tryExtensions := opts.tryExtensions } =
      { resolvedPath := pX, existsb := true, isDirectory := false })
    (hstack : stack.contains pX = true) :
    compileContentRecursiveF (fuel + 1) fs opts content cur stack counts
      imported (L : Int) =
      some { compiledContent :=
               normalizeHeadings (stripFrontMatter content) ((L : Int) + 1)
                 true false,
             references :=
               [{ reference := rb, resolvedPath := pX, found := false,
                  circular := true,
                  error :=
                    some (strL "Circular dependency detected: " ++ pX) }],
             counts := counts, imported := imported } := by
  rw [compileContentRecursiveF.eq_2]
  simp only [hrefs, hmode, hdup, hbp, sortByStartDesc_single,
    Option.getD_some, Bool.false_eq_true, if_false]
  rw [processRefs.eq_2]
  simp only [hr, hstack, if_true, processRefs, List.nil_append,
    Option.some_inj]
  simp [Int.natCast_nonneg]

private theorem processRefs_no_reentry
    (recur recur' : Str → Str → List Str → List (Str × Nat) → List Str →
      Int → Option CompileInner)
    (ctx : RunCtx)
    (hagree : ∀ content cur stack counts imported hctx,
      ctx.stack.contains cur = false →
      recur content cur stack counts imported hctx =
        recur' content cur stack counts imported hctx) :
    ∀ (refs : List AtReference) (content : Str) (counts : List (Str × Nat))
      (imported : List Str) (acc : List CompiledReference),
      processRefs recur ctx refs content counts imported acc =
        processRefs recur' ctx refs content counts imported acc := by
  intro refs
  induction refs with
  | nil => intro content counts imported acc; rfl
  | cons ref rest ih =>
    intro content counts imported acc
    simp only [processRefs]
    split_ifs with h1 h2 h3 h4
    all_goals
      first
        | exact ih _ _ _ _
        | (split
           next => exact ih _ _ _ _
           next fc hfe =>
             rw [hagree _ _ _ _ _ _ (by revert h1; simp)]
             split
             next => rfl
             next nested hx => exact ih _ _ _ _)

/-- C1: for a two-file cycle (A references B, B references back to A),
compiling A terminates with a result: B's visible content (normalized to
A's context level plus one) is inlined exactly once at A's reference, the
reference list holds exactly one `circular := true` record whose
resolvedPath is A's absolute path, and — generally — a resolved path
already on the ancestor stack is never recursed into: the engine's result
does not depend on what recursive compilation would return for any path on
the stack. -/
theorem C1_cycle_safety (fs : FileSystem) (opts : CompileOptions)
    (a b pa pb bp : Str) (ra rb : AtReference) (ctxA : HeadingContext)
    (hmode : opts.headingMode = HeadingMode.normalize)
    (hwrap : opts.contentWrapper = none)
    (hdup : opts.optimizeDuplicates = false)
    (hbp : opts.basePath = some bp)
    (hpa : pathResolve fs.cwd pa = pa)
    (ha : fs.files.lookup pa = some a)
    (hb : fs.files.lookup pb = some b)
    (hne : pa ≠ pb)
    (hrefsa : extractReferences (stripFrontMatter a) = [ra])
    (hrefsb : extractReferences (stripFrontMatter b) = [rb])
    (hctxa : analyzeHeadingContext (stripFrontMatter a) [ra] =
      [(ra.startIndex, ctxA)])
    (hra : resolvePath fs ra.path
      { basePath := some bp, tryExtensions := opts.tryExtensions } =
      { resolvedPath := pb, existsb := true, isDirectory := false })
    (hrb : resolvePath fs rb.path
      { basePath := some bp, tryExtensions := opts.tryExtensions } =
      { resolvedPath := pa, existsb := true, isDirectory := false }) :
    compileFile fs pa opts = some
      { inputPath := pa,
        outputPath := pathResolve fs.cwd
          (opts.outputPath.getD (getBuiltOutputPath pa)),
        compiledContent :=
          (stripFrontMatter a).take ra.startIndex ++
            (defaultContentWrapper
              (normalizeHeadings (stripFrontMatter b)
                ((ctxA.contextLevel : Int) + 1) true false) pb ra ++
              (stripFrontMatter a).drop ra.endIndex),
        references :=
          [{ reference := ra, resolvedPath := pb, found := true,
             content := some (normalizeHeadings (stripFrontMatter b)
               ((ctxA.contextLevel : Int) + 1) true false),
             importCount := some 1, importedFrom := some pa },
           { reference := rb, resolvedPath := pa, found := false,
             circular := true,
             error := some (strL "Circular dependency detected: " ++ pa) }],
        successCount := 1, failedCount := 1,
        written := opts.writeOutput,
        importStats := { fileImportCounts := [(pb, 1)],
                         duplicateFiles := [] } } ∧
    List.filter (fun cr : CompiledReference => cr.circular)
      [{ reference := ra, resolvedPath := pb, found := true,
         content := some (normalizeHeadings (stripFrontMatter b)
           ((ctxA.contextLevel : Int) + 1) true false),
         importCount := some 1, importedFrom := some pa },
       { reference := rb, resolvedPath := pa, found := false,
         circular := true,
         error := some (strL "Circular dependency detected: " ++ pa) }] =
      [{ reference := rb, resolvedPath := pa, found := false,
         circular := true,
         error := some (strL "Circular dependency detected: " ++ pa) }] ∧
    (∀ (recur recur' : Str → Str → List Str → List (Str × Nat) →
        List Str → Int → Option CompileInner) (ctx : RunCtx),
      (∀ content cur stack counts imported hctx,
        ctx.stack.contains cur = false →
        recur content cur stack counts imported hctx =
          recur' content cur stack counts imported hctx) →
      ∀ refs content counts imported acc,
        processRefs recur ctx refs content counts imported acc =
          processRefs recur' ctx refs content counts imported acc) := by
  refine ⟨?_, rfl, fun recur recur' ctx hagree =>
    processRefs_no_reentry recur recur' ctx hagree⟩
  obtain ⟨m, hm⟩ := files_len_two hne ha hb
  have hstk : ([pa, pb] : List Str).contains pa = true := by simp
  have hnebeq : (pb == pa) = false := beq_eq_false_iff_ne.mpr (Ne.symm hne)
  simp only [compileFile, compileFileWithCache, hpa, ha, hbp,
    Option.getD_some, hm, hmode]
  rw [compileContentRecursiveF.eq_2]
  simp only [hrefsa, hmode, hdup, sortByStartDesc_single, hctxa,
    Option.getD_some, Bool.false_eq_true, if_false]
  rw [processRefs.eq_2]
  simp only [hra]
  simp only [List.contains, List.elem, hnebeq, Bool.and_true, Bool.and_false,
    Bool.not_false, Bool.not_true, Bool.and_self, if_false, if_true,
    Bool.true_and, Bool.false_and, Bool.false_eq_true, Bool.or_false,
    mapGet, mapSet, List.lookup, Option.getD_none, beq_self_eq_true,
    Option.getD_some, hb, hctxa]
  simp only [reduceCtorEq, if_false, setAdd, List.contains, List.elem,
    hnebeq, Bool.or_false, Option.map_some', Option.getD_some,
    List.nil_append, List.cons_append]
  rw [compile_child_circ (m + 1) fs
    { opts with basePath := some bp, optimizeDuplicates := false,
                headingMode := HeadingMode.normalize }
    b pb _ _ _ pa bp rb _ rfl rfl rfl hrefsb hrb hstk]
  simp only [wrapWith, hwrap, Option.getD_none, processRefs,
    List.reverse_nil, List.reverse_append, List.reverse_cons,
    List.nil_append, List.append_nil, List.singleton_append,
    List.cons_append, List.filter, List.length_cons, List.length_nil]
  norm_num

/-- A concrete two-file cycle (`/w/a.md` references `/w/b.md` and vice
versa) instantiating the cycle-safety theorem. -/
def a2 : Str := strL "A\n\n@b.md\n"

def b2 : Str := strL "B\n\n@a.md\n"

def pa2 : Str := strL "/w/a.md"

def pb2 : Str := strL "/w/b.md"

def bp2 : Str := strL "/w"

def fs2 : FileSystem :=
  { files := [(pa2, a2), (pb2, b2)], dirs := [], cwd := bp2 }

def opts2 : CompileOptions := { basePath := some bp2 }

def ra2 : AtReference :=
  { raw := strL "@b.md", path := strL "b.md", startIndex := 3, endIndex := 8,
    line := 3, column := 1 }

def rb2 : AtReference :=
  { raw := strL "@a.md", path := strL "a.md", startIndex := 3, endIndex := 8,
    line := 3, column := 1 }

def ctxA2 : HeadingContext := { contextLevel := 0, shiftAmount := 0 }

theorem C1_cycle_safety_witness :
    compileFile fs2 pa2 opts2 = some
      { inputPath := pa2,
        outputPath := pathResolve fs2.cwd
          (opts2.outputPath.getD (getBuiltOutputPath pa2)),
        compiledContent :=
          (stripFrontMatter a2).take ra2.startIndex ++
            (defaultContentWrapper
              (normalizeHeadings (stripFrontMatter b2)
                ((ctxA2.contextLevel : Int) + 1) true false) pb2 ra2 ++
              (stripFrontMatter a2).drop ra2.endIndex),
        references :=
          [{ reference := ra2, resolvedPath := pb2, found := true,
             content := some (normalizeHeadings (stripFrontMatter b2)
               ((ctxA2.contextLevel : Int) + 1) true false),
             importCount := some 1, importedFrom := some pa2 },
           { reference := rb2, resolvedPath := pa2, found := false,
             circular := true,
             error := some (strL "Circular dependency detected: " ++ pa2) }],
        successCount := 1, failedCount := 1,
        written := opts2.writeOutput,
        importStats := { fileImportCounts := [(pb2, 1)],
                         duplicateFiles := [] } } ∧
    List.filter (fun cr : CompiledReference => cr.circular)
      [{ reference := ra2, resolvedPath := pb2, found := true,
         content := some (normalizeHeadings (stripFrontMatter b2)
           ((ctxA2.contextLevel : Int) + 1) true false),
         importCount := some 1, importedFrom := some pa2 },
       { reference := rb2, resolvedPath := pa2, found := false,
         circular := true,
         error := some (strL "Circular dependency detected: " ++ pa2) }] =
      [{ reference := rb2, resolvedPath := pa2, found := false,
         circular := true,
         error := some (strL "Circular dependency detected: " ++ pa2) }] ∧
    (∀ (recur recur' : Str → Str → List Str → List (Str × Nat) →
        List Str → Int → Option CompileInner) (ctx : RunCtx),
      (∀ content cur stack counts imported hctx,
        ctx.stack.contains cur = false →
        recur content cur stack counts imported hctx =
          recur' content cur stack counts imported hctx) →
      ∀ refs content counts imported acc,
        processRefs recur ctx refs content counts imported acc =
          processRefs recur' ctx refs content counts imported acc) :=
  C1_cycle_safety fs2 opts2 a2 b2 pa2 pb2 bp2 ra2 rb2 ctxA2 rfl rfl rfl rfl
    rfl rfl rfl (by decide) rfl rfl rfl rfl rfl

end AtRef
